import Mathlib

/-!
Verification of the script2json streaming pipeline (src/main.go).

The development shallowly embeds the pure core of the pipeline:

* the line editor (`lineEditor` / `insertByte` / `handleCSI` in main.go) as a
  state machine over byte lists (bytes are `Nat` values, 0..255 in use);
* the record assembler (`recordCreator` in main.go) as a step function over an
  explicit state of queues, a monotone counter and the reset-listener status;
* the byte source gate (`scriptFifoReader`) as a filter over (byte, flag) pairs;
* the process exit discipline of `main`, the readers and the signal handler.

The Go line editor performs a blocking read of the byte following an ESC inside
the loop body; the embedding de-sugars that lookahead into an `afterEsc` flag so
that processing is a plain left fold over the incoming byte list.  All other
state components mirror main.go's local variables byte for byte.
-/

namespace Script2Json

/-- Control bytes, from the `const` block of main.go. -/
def EOFB : Nat := 0x04

/-- ESC byte (0x1B). -/
def ESCB : Nat := 0x1B

/-- Backspace byte (0x08). -/
def BACKSPACEB : Nat := 0x08

/-- DEL byte (0x7F). -/
def DELB : Nat := 0x7F

/-- The CSI introducer second byte, `[` (0x5B). -/
def CSIB : Nat := 0x5B

/-- Arrow-left CSI final byte, `D`. -/
def ARROW_LEFT : Nat := 0x44

/-- Arrow-right CSI final byte, `C`. -/
def ARROW_RIGHT : Nat := 0x43

/-- The byte string "?1049" looked for by `handleCSI`. -/
def q1049 : List Nat := [0x3F, 0x31, 0x30, 0x34, 0x39]

/-- Embedding of Go's `bytes.HasSuffix(s, suffix)`: the last `|suffix|` bytes
of `s` equal `suffix`. -/
def listHasSuffix (s suffix : List Nat) : Bool :=
  decide (suffix.length ≤ s.length) && decide (s.drop (s.length - suffix.length) = suffix)

/-- Embedding of Go's `bytes.Contains(s, sub)`: `sub` occurs contiguously in
`s`, i.e. some suffix of `s` starts with `sub`. -/
def listContains (s sub : List Nat) : Bool :=
  match s with
  | [] => decide (sub = [])
  | _ :: t => decide (s.take sub.length = sub) || listContains t sub

/-- A byte that terminates a CSI sequence in `lineEditor`'s dispatch test:
`(b >= 'a' && b <= 'z') || (b >= 'A' && b <= 'Z') || b == '~'`. -/
def isCSIFinal (b : Nat) : Bool :=
  (decide (0x61 ≤ b) && decide (b ≤ 0x7A)) || (decide (0x41 ≤ b) && decide (b ≤ 0x5A))
    || decide (b = 0x7E)

/-- Embedding of `handleCSI` from main.go.  The Go function receives `buffer`,
`cursor` and `inAlternateScreen` through pointers; it never writes through the
buffer pointer, so the embedding returns the triple
(buffer, cursor, inAlternateScreen). -/
def handleCSI (seq buffer : List Nat) (cursor : Nat) (alt : Bool) :
    List Nat × Nat × Bool :=
  if listHasSuffix seq [0x68] && listContains seq q1049 then
    (buffer, cursor, true)
  else if listHasSuffix seq [0x6C] && listContains seq q1049 then
    (buffer, cursor, false)
  else
    match seq.getLast? with
    | some b =>
      if b = ARROW_LEFT then
        (buffer, if 0 < cursor then cursor - 1 else cursor, alt)
      else if b = ARROW_RIGHT then
        (buffer, if cursor < buffer.length then cursor + 1 else cursor, alt)
      else (buffer, cursor, alt)
    | none => (buffer, cursor, alt)

/-- State of the line editor: the local variables of `lineEditor` in main.go,
plus `afterEsc` (the de-sugared ESC lookahead) and the history `outputs` of
strings sent on `commandOutputChan`, in emission order. -/
structure EditorState where
  buffer : List Nat
  cursor : Nat
  csiBuffer : List Nat
  inCSI : Bool
  afterEsc : Bool
  inAlternateScreen : Bool
  outputs : List (List Nat)
deriving Repr, DecidableEq

/-- The initial line-editor state. -/
def initEditor : EditorState :=
  { buffer := [], cursor := 0, csiBuffer := [], inCSI := false, afterEsc := false,
    inAlternateScreen := false, outputs := [] }

/-- Embedding of the closure `insertByte` of `lineEditor`: insert `b` at the
cursor (append when the cursor sits at the end, otherwise shift the suffix one
position right) and advance the cursor. -/
def insertByte (st : EditorState) (b : Nat) : EditorState :=
  if st.cursor = st.buffer.length then
    { st with buffer := st.buffer ++ [b], cursor := st.cursor + 1 }
  else
    { st with buffer := st.buffer.take st.cursor ++ b :: st.buffer.drop st.cursor,
              cursor := st.cursor + 1 }

/-- One iteration of `lineEditor`'s receive loop on byte `b`.  Branches follow
main.go in order: pending ESC lookahead, in-CSI accumulation/dispatch, the
alternate-screen filter, then the switch on `b` (EOF emission, ESC, backspace
and DEL, newline and carriage return, printable ASCII, everything else
ignored). -/
def editorStep (st : EditorState) (b : Nat) : EditorState :=
  if st.afterEsc then
    if b = CSIB then
      { st with afterEsc := false, inCSI := true, csiBuffer := [] }
    else
      { st with afterEsc := false }
  else if st.inCSI then
    if isCSIFinal b then
      let r := handleCSI (st.csiBuffer ++ [b]) st.buffer st.cursor st.inAlternateScreen
      { st with inCSI := false, csiBuffer := [],
                buffer := r.1, cursor := r.2.1, inAlternateScreen := r.2.2 }
    else
      { st with csiBuffer := st.csiBuffer ++ [b] }
  else if st.inAlternateScreen && b ≠ ESCB then
    st
  else if b = EOFB then
    { st with outputs := st.outputs ++ [st.buffer], buffer := [], cursor := 0 }
  else if b = ESCB then
    { st with afterEsc := true }
  else if b = BACKSPACEB ∨ b = DELB then
    if 0 < st.cursor then
      { st with buffer := st.buffer.take (st.cursor - 1) ++ st.buffer.drop st.cursor,
                cursor := st.cursor - 1 }
    else st
  else if b = 0x0A ∨ b = 0x0D then
    insertByte st b
  else if 32 ≤ b ∧ b < 127 then
    insertByte st b
  else st

/-- Run the line editor over a list of incoming bytes. -/
def lineEditorRun (st : EditorState) (l : List Nat) : EditorState :=
  l.foldl editorStep st

/-- Embedding of the closure `resetState` of `lineEditor`: clear buffer,
csi buffer, cursor and both mode flags (draining of the byte queue discards
input and leaves the state alone, so it needs no separate model). -/
def resetEditor (st : EditorState) : EditorState :=
  { st with buffer := [], csiBuffer := [], cursor := 0, inCSI := false,
            inAlternateScreen := false }

example : (lineEditorRun initEditor [0x68, 0x69, EOFB]).outputs = [[0x68, 0x69]] := by
  decide

example :
    (lineEditorRun initEditor [0x68, 0x69, BACKSPACEB, EOFB]).outputs = [[0x68]] := by
  decide

example :
    (lineEditorRun initEditor
      [0x68, 0x65, 0x6C, 0x6F, ESCB, CSIB, 0x44, ESCB, CSIB, 0x44, 0x6C, EOFB]).outputs
      = [[0x68, 0x65, 0x6C, 0x6C, 0x6F]] := by
  decide

example :
    (lineEditorRun initEditor
      ([0x61] ++ [ESCB, CSIB, 0x3F, 0x31, 0x30, 0x34, 0x39, 0x68]
        ++ [0x47, 0x41, EOFB, 0x52]
        ++ [ESCB, CSIB, 0x3F, 0x31, 0x30, 0x34, 0x39, 0x6C]
        ++ [0x62, EOFB])).outputs = [[0x61, 0x62]] := by
  decide

/-! ## Record assembler (`recordCreator` in main.go) -/

/-- Embedding of the `CommandRecord` struct.  The wall-clock value captured by
`time.Now()` is abstracted as a `Nat` timestamp. -/
structure CommandRecord where
  id : String
  command : String
  output : String
  returnTimestamp : Nat
deriving Repr, DecidableEq

/-- State of the record assembler: the process-wide `recordID` counter, the
contents of `commandOutputChan` and `commandChan` still pending, whether the
reset-listener goroutine of `recordCreator` is still running, and the records
emitted so far in order. -/
structure RCState where
  counter : Nat
  outQueue : List String
  cmdQueue : List String
  resetListenerAlive : Bool
  records : List CommandRecord
deriving Repr, DecidableEq

/-- Initial record-assembler state: `recordID` starts at zero, both queues
empty, reset listener running, nothing emitted. -/
def rcInit : RCState :=
  { counter := 0, outQueue := [], cmdQueue := [], resetListenerAlive := true,
    records := [] }

/-- Events the record assembler reacts to: an output string arriving on
`commandOutputChan`, a command string arriving on `commandChan`, the main loop
of `recordCreator` processing one pending output at wall-clock time `t`, and a
reset token arriving on `recordCreatorResetChan`. -/
inductive RCEvent where
  | enqOutput (s : String)
  | enqCommand (s : String)
  | procOutput (t : Nat)
  | reset
deriving Repr, DecidableEq

/-- One step of the record assembler, from main.go's `recordCreator`:

* `procOutput t` runs one iteration of the main loop: take the next pending
  output, take a command non-blockingly (empty string when `commandChan` holds
  nothing), and emit a record whose id is the decimal rendering of
  `recordID.Add(1)` (a `uint64`, hence the `% 2^64`).
* `reset` runs the body of the reset-listener goroutine: drain both channels
  and then `return` — the `return` statement exits the goroutine, so the
  listener is no longer alive afterwards; a token delivered with no live
  listener has no effect.  The counter is untouched in both cases. -/
def rcStep (s : RCState) : RCEvent → RCState
  | .enqOutput o => { s with outQueue := s.outQueue ++ [o] }
  | .enqCommand c => { s with cmdQueue := s.cmdQueue ++ [c] }
  | .procOutput t =>
    match s.outQueue with
    | [] => s
    | o :: rest =>
      let command : String := match s.cmdQueue with
        | [] => ""
        | c :: _ => c
      let cq : List String := match s.cmdQueue with
        | [] => []
        | _ :: cs => cs
      let n : Nat := (s.counter + 1) % 2 ^ 64
      { s with counter := n, outQueue := rest, cmdQueue := cq,
               records := s.records ++ [⟨Nat.repr n, command, o, t⟩] }
  | .reset =>
    if s.resetListenerAlive then
      { s with outQueue := [], cmdQueue := [], resetListenerAlive := false }
    else s

/-- Run the record assembler over a trace of events. -/
def rcRun (s : RCState) (tr : List RCEvent) : RCState :=
  tr.foldl rcStep s

/-- The wall-clock times of the `procOutput` events of a trace, in order. -/
def procTimes : List RCEvent → List Nat
  | [] => []
  | .procOutput t :: tr => t :: procTimes tr
  | _ :: tr => procTimes tr

example :
    (rcRun rcInit [.enqCommand "ls", .enqOutput "a\n", .procOutput 5]).records
      = [⟨"1", "ls", "a\n", 5⟩] := by
  decide

example :
    (rcRun rcInit [.enqOutput "a", .procOutput 3, .enqOutput "b", .procOutput 7]).records
      = [⟨"1", "", "a", 3⟩, ⟨"2", "", "b", 7⟩] := by
  decide

/-! ## Process exit discipline (main, the readers, the signal handler) -/

/-- Outcome of a control path of the process: it either exits with a status
code or keeps running. -/
inductive ProcessOutcome where
  | exited (code : Nat)
  | running
deriving Repr, DecidableEq

/-- Embedding of the startup sequence of `main` (main.go lines 82-98): failure
to create or stat either FIFO, or to write a requested PID file, exits with
status 1 before the pipeline goroutines are started. -/
def mainStartup (scriptCreateOk commandCreateOk pidRequested pidWriteOk : Bool) :
    ProcessOutcome :=
  if !scriptCreateOk then .exited 1
  else if !commandCreateOk then .exited 1
  else if pidRequested && !pidWriteOk then .exited 1
  else .running

/-- Embedding of `scriptFifoReader`'s open step: on open failure it calls
`log.Fatalf`, which exits the process with status 1. -/
def scriptFifoOpen (openOk : Bool) : ProcessOutcome :=
  if openOk then .running else .exited 1

/-- Embedding of `commandFifoReader`'s open step: on open failure it logs the
error and breaks out of its loop; the goroutine ends but the process keeps
running. -/
def commandFifoOpen (openOk : Bool) : ProcessOutcome :=
  if openOk then .running else .running

/-- The call sites in main.go that terminate the process. -/
inductive ExitSite where
  | invalidLogLevel
  | scriptCreateFail
  | commandCreateFail
  | pidWriteFail
  | scriptOpenFail
  | terminateSignal
deriving Repr, DecidableEq

/-- Exit status of each terminating call site: `log.Fatalf` and the
`os.Exit(1)` calls give status 1; the SIGINT/SIGTERM handler calls
`os.Exit(0)`. -/
def exitCode : ExitSite → Nat
  | .terminateSignal => 0
  | _ => 1

/-! ## Byte source gate (`scriptFifoReader` in main.go) -/

/-- Embedding of the forwarding loop of `scriptFifoReader`: each read is a pair
of the byte read and the value of the atomic `reading` flag at that moment; the
byte is sent on the byte queue exactly when the flag was true. -/
def forwardedBytes (reads : List (Nat × Bool)) : List Nat :=
  (reads.filter (fun p => p.2)).map (fun p => p.1)

example : forwardedBytes [(1, true), (2, false), (3, true)] = [1, 3] := by decide

/-! ## Helper lemmas -/

/-- A one-byte suffix test is a test on the last byte. -/
theorem listHasSuffix_single (s : List Nat) (x : Nat) :
    listHasSuffix s [x] = true ↔ s.getLast? = some x := by
  unfold listHasSuffix
  rw [Bool.and_eq_true, decide_eq_true_eq, decide_eq_true_eq]
  induction s with
  | nil => simp
  | cons a t ih =>
    cases t with
    | nil => simp
    | cons b t' =>
      rw [List.getLast?_cons_cons, ← ih]
      constructor
      · rintro ⟨-, hd⟩
        refine ⟨by simp, ?_⟩
        simpa [List.length_cons, Nat.add_sub_cancel] using hd
      · rintro ⟨-, hd⟩
        refine ⟨by simp, ?_⟩
        simpa [List.length_cons, Nat.add_sub_cancel] using hd

/-- `handleCSI` never modifies the buffer. -/
theorem handleCSI_buffer (seq buf : List Nat) (c : Nat) (alt : Bool) :
    (handleCSI seq buf c alt).1 = buf := by
  unfold handleCSI
  split
  · rfl
  · split
    · rfl
    · split
      · split
        · rfl
        · split <;> rfl
      · rfl

/-- The cursor returned by `handleCSI` stays within the returned buffer. -/
theorem handleCSI_cursor_le (seq buf : List Nat) (c : Nat) (alt : Bool)
    (h : c ≤ buf.length) :
    (handleCSI seq buf c alt).2.1 ≤ (handleCSI seq buf c alt).1.length := by
  rw [handleCSI_buffer]
  unfold handleCSI
  split
  · exact h
  · split
    · exact h
    · split
      · split
        · dsimp only
          split <;> omega
        · split
          · dsimp only
            split <;> omega
          · exact h
      · exact h

/-- C7 theorem.  Dispatch behavior of the CSI handler: a sequence whose
terminating byte is `h` (resp. `l`) and which contains "?1049" turns the
alternate-screen flag on (resp. off); a terminating `D` decrements the cursor
only when it is positive; a terminating `C` increments it only when it is below
the buffer length; every other sequence leaves buffer, cursor and flag
unchanged; the buffer is never modified. -/
theorem handleCSI_dispatch_spec (seq buf : List Nat) (c : Nat) (alt : Bool) :
    (handleCSI seq buf c alt).1 = buf ∧
    (seq.getLast? = some 0x68 → listContains seq q1049 = true →
      handleCSI seq buf c alt = (buf, c, true)) ∧
    (seq.getLast? = some 0x6C → listContains seq q1049 = true →
      handleCSI seq buf c alt = (buf, c, false)) ∧
    (seq.getLast? = some ARROW_LEFT →
      handleCSI seq buf c alt = (buf, if 0 < c then c - 1 else c, alt)) ∧
    (seq.getLast? = some ARROW_RIGHT →
      handleCSI seq buf c alt = (buf, if c < buf.length then c + 1 else c, alt)) ∧
    ((∀ b, seq.getLast? = some b →
        (b = 0x68 ∨ b = 0x6C → listContains seq q1049 = false) ∧
        b ≠ ARROW_LEFT ∧ b ≠ ARROW_RIGHT) →
      handleCSI seq buf c alt = (buf, c, alt)) := by
  refine ⟨handleCSI_buffer seq buf c alt, ?_, ?_, ?_, ?_, ?_⟩
  · intro hlast hin
    unfold handleCSI
    rw [(listHasSuffix_single seq 0x68).mpr hlast, hin]
    rfl
  · intro hlast hin
    have h68 : listHasSuffix seq [0x68] = false := by
      cases h : listHasSuffix seq [0x68]
      · rfl
      · rw [(listHasSuffix_single seq 0x68).mp h] at hlast
        exact absurd (Option.some.inj hlast) (by decide)
    unfold handleCSI
    rw [h68, (listHasSuffix_single seq 0x6C).mpr hlast, hin]
    rfl
  · intro hlast
    have h68 : listHasSuffix seq [0x68] = false := by
      cases h : listHasSuffix seq [0x68]
      · rfl
      · rw [(listHasSuffix_single seq 0x68).mp h] at hlast
        exact absurd (Option.some.inj hlast) (by decide)
    have h6C : listHasSuffix seq [0x6C] = false := by
      cases h : listHasSuffix seq [0x6C]
      · rfl
      · rw [(listHasSuffix_single seq 0x6C).mp h] at hlast
        exact absurd (Option.some.inj hlast) (by decide)
    unfold handleCSI
    rw [h68, h6C, hlast]
    rfl
  · intro hlast
    have h68 : listHasSuffix seq [0x68] = false := by
      cases h : listHasSuffix seq [0x68]
      · rfl
      · rw [(listHasSuffix_single seq 0x68).mp h] at hlast
        exact absurd (Option.some.inj hlast) (by decide)
    have h6C : listHasSuffix seq [0x6C] = false := by
      cases h : listHasSuffix seq [0x6C]
      · rfl
      · rw [(listHasSuffix_single seq 0x6C).mp h] at hlast
        exact absurd (Option.some.inj hlast) (by decide)
    unfold handleCSI
    rw [h68, h6C, hlast]
    rfl
  · intro hother
    unfold handleCSI
    cases hlast : seq.getLast? with
    | none =>
      have hempty : seq = [] := List.getLast?_eq_none_iff.mp hlast
      subst hempty
      rfl
    | some b =>
      obtain ⟨hq, hD, hC⟩ := hother b hlast
      have h68 : (listHasSuffix seq [0x68] && listContains seq q1049) = false := by
        cases h : listHasSuffix seq [0x68]
        · rfl
        · have hb : b = 0x68 := by
            rw [(listHasSuffix_single seq 0x68).mp h] at hlast
            exact (Option.some.inj hlast).symm
          rw [hq (Or.inl hb)]
          rfl
      have h6C : (listHasSuffix seq [0x6C] && listContains seq q1049) = false := by
        cases h : listHasSuffix seq [0x6C]
        · rfl
        · have hb : b = 0x6C := by
            rw [(listHasSuffix_single seq 0x6C).mp h] at hlast
            exact (Option.some.inj hlast).symm
          rw [hq (Or.inr hb)]
          rfl
      rw [if_neg (by rw [h68]; exact Bool.false_ne_true),
        if_neg (by rw [h6C]; exact Bool.false_ne_true)]
      dsimp only
      rw [if_neg hD, if_neg hC]

/-- C7 witness: the canonical enter-alternate-screen sequence "?1049h" sets the
flag and leaves buffer and cursor alone. -/
theorem handleCSI_dispatch_spec_witness :
    handleCSI [0x3F, 0x31, 0x30, 0x34, 0x39, 0x68] [0x61] 1 false = ([0x61], 1, true) :=
  (handleCSI_dispatch_spec [0x3F, 0x31, 0x30, 0x34, 0x39, 0x68] [0x61] 1 false).2.1
    (by decide) (by decide)

/-- C8 theorem.  When an output arrives and the command queue is empty at that
moment, the record assembler does not block: it emits the record anyway, with
the empty string in the command field. -/
theorem rc_missing_command_uses_empty_string (s : RCState) (o : String)
    (rest : List String) (t : Nat)
    (ho : s.outQueue = o :: rest) (hc : s.cmdQueue = []) :
    rcStep s (.procOutput t) =
      { s with counter := (s.counter + 1) % 2 ^ 64, outQueue := rest,
               records := s.records ++
                 [⟨Nat.repr ((s.counter + 1) % 2 ^ 64), "", o, t⟩] } := by
  unfold rcStep
  rw [ho, hc]

/-- C8 witness at a concrete state with one pending output and no command. -/
theorem rc_missing_command_uses_empty_string_witness :
    rcStep { counter := 0, outQueue := ["out"], cmdQueue := [],
             resetListenerAlive := true, records := [] } (.procOutput 9) =
      { counter := (0 + 1) % 2 ^ 64, outQueue := [], cmdQueue := [],
        resetListenerAlive := true,
        records := [⟨Nat.repr ((0 + 1) % 2 ^ 64), "", "out", 9⟩] } :=
  rc_missing_command_uses_empty_string _ "out" [] 9 rfl rfl

/-- C1 theorem (bug evaluation).  The first reset token drains both queues, but
the drain loop ends in `return`, which terminates the reset-listener goroutine:
a later reset token is never serviced, so items pending at that point stay in
the queues, contradicting the specified "drain and resume" behavior. -/
theorem rc_reset_listener_one_shot :
    (rcRun rcInit [.enqOutput "stale", .enqCommand "cmd", .reset]).outQueue = [] ∧
    (rcRun rcInit [.enqOutput "stale", .enqCommand "cmd", .reset]).cmdQueue = [] ∧
    (rcRun rcInit [.reset, .enqOutput "stale", .enqCommand "cmd", .reset]).outQueue
      = ["stale"] ∧
    (rcRun rcInit [.reset, .enqOutput "stale", .enqCommand "cmd", .reset]).cmdQueue
      = ["cmd"] := by
  refine ⟨rfl, rfl, rfl, rfl⟩

/-- C6 counterexample.  A command-FIFO open failure does not exit the process:
`commandFifoReader` logs the error and breaks out of its loop, so no exit
happens, contradicting "the process exits with a nonzero status". -/
theorem command_fifo_open_failure_does_not_exit :
    commandFifoOpen false = ProcessOutcome.running ∧
    ∀ code, ProcessOutcome.running ≠ ProcessOutcome.exited code := by
  exact ⟨rfl, fun code h => ProcessOutcome.noConfusion h⟩

/-- C6 amended theorem.  Failure to create or stat either FIFO exits the
process with status 1 before the pipeline starts; a script-FIFO open failure
exits with status 1 (from the reader task, after the pipeline has started); a
command-FIFO open failure only ends the command source and the process keeps
running; across all terminating call sites, the exit status is 0 exactly on
the terminate-signal path. -/
theorem exit_status_discipline :
    (∀ c p w, mainStartup false c p w = .exited 1) ∧
    (∀ p w, mainStartup true false p w = .exited 1) ∧
    scriptFifoOpen false = .exited 1 ∧
    commandFifoOpen false = .running ∧
    (∀ site, exitCode site = 0 ↔ site = .terminateSignal) := by
  refine ⟨fun c p w => rfl, fun p w => rfl, rfl, rfl, fun site => ?_⟩
  cases site <;> simp [exitCode]

/-! ## C5: the byte-source gate and noninterference -/

/-- C5 theorem.  `scriptFifoReader` forwards a byte exactly when the reading
flag is true at the moment of the read; consequently two runs whose reads agree
on the flag values and on every byte read while the flag was true forward the
same byte sequence into the pipeline, and the line editor (whose outputs are
the record contents) reaches the same state in both runs. -/
theorem byte_source_gate_noninterference (r1 r2 : List (Nat × Bool))
    (h : List.Forall₂ (fun p q : Nat × Bool => p.2 = q.2 ∧ (p.2 = true → p.1 = q.1)) r1 r2) :
    forwardedBytes r1 = forwardedBytes r2 ∧
    lineEditorRun initEditor (forwardedBytes r1)
      = lineEditorRun initEditor (forwardedBytes r2) := by
  have hfwd : forwardedBytes r1 = forwardedBytes r2 := by
    induction h with
    | nil => rfl
    | cons hpq htail ih =>
      rename_i p q l1 l2
      obtain ⟨hflag, hbyte⟩ := hpq
      unfold forwardedBytes at ih ⊢
      cases hp : p.2 with
      | false =>
        rw [List.filter_cons, List.filter_cons, hp, ← hflag, hp]
        simpa using ih
      | true =>
        rw [List.filter_cons, List.filter_cons, hp, ← hflag, hp]
        simp only [List.map_cons, if_true]
        rw [hbyte hp]
        simpa using ih
  exact ⟨hfwd, by rw [hfwd]⟩

/-- C5 witness: two read sequences differing only in a byte read while the
flag was false. -/
theorem byte_source_gate_noninterference_witness :
    forwardedBytes [(0x61, true), (0x01, false)]
      = forwardedBytes [(0x61, true), (0x02, false)] ∧
    lineEditorRun initEditor (forwardedBytes [(0x61, true), (0x01, false)])
      = lineEditorRun initEditor (forwardedBytes [(0x61, true), (0x02, false)]) :=
  byte_source_gate_noninterference _ _
    (.cons ⟨rfl, fun _ => rfl⟩ (.cons ⟨rfl, fun h => absurd h (by decide)⟩ .nil))

/-! ## C2: the editor on ESC-free input matches the plain editing rules -/

/-- The per-byte editing rule as the claim states it, on a (buffer, cursor)
pair: printable ASCII 0x20-0x7E and the bytes 0x0A/0x0D are inserted at the
cursor (appending when the cursor equals the buffer length, otherwise shifting
the suffix right) and the cursor advances; 0x08 and 0x7F delete the byte before
the cursor and decrement the cursor only when the cursor is positive; every
other byte is ignored. -/
def claimEditStep (p : List Nat × Nat) (b : Nat) : List Nat × Nat :=
  if (32 ≤ b ∧ b ≤ 126) ∨ b = 0x0A ∨ b = 0x0D then
    if p.2 = p.1.length then (p.1 ++ [b], p.2 + 1)
    else (p.1.take p.2 ++ b :: p.1.drop p.2, p.2 + 1)
  else if b = 0x08 ∨ b = 0x7F then
    if 0 < p.2 then (p.1.take (p.2 - 1) ++ p.1.drop p.2, p.2 - 1) else p
  else p

/-- Result of processing a byte sequence with the claim's editing rules,
starting from an empty buffer. -/
def claimEdit (xs : List Nat) : List Nat :=
  (xs.foldl claimEditStep ([], 0)).1

/-- On a byte that is neither ESC nor the end-of-command marker, an editor
state with all mode flags clear steps exactly as the claim's editing rule on
its (buffer, cursor) pair. -/
theorem editorStep_plain (st : EditorState) (b : Nat)
    (h1 : st.inCSI = false) (h2 : st.afterEsc = false)
    (h3 : st.inAlternateScreen = false)
    (hb1 : b ≠ ESCB) (hb2 : b ≠ EOFB) :
    editorStep st b =
      { st with buffer := (claimEditStep (st.buffer, st.cursor) b).1,
                cursor := (claimEditStep (st.buffer, st.cursor) b).2 } := by
  have hb1' : b ≠ 27 := hb1
  have hb2' : b ≠ 4 := hb2
  clear hb1 hb2
  obtain ⟨bf, cu, cb, ic, ae, alt0, out⟩ := st
  dsimp only at h1 h2 h3
  subst h1 h2 h3
  unfold editorStep claimEditStep insertByte
  dsimp only
  simp only [Bool.false_and, Bool.false_eq_true, if_false,
    show ESCB = 27 from rfl, show EOFB = 4 from rfl, show BACKSPACEB = 8 from rfl,
    show DELB = 127 from rfl]
  split_ifs <;> first
    | rfl
    | omega

/-- Running the editor over an ESC-free, marker-free byte list from a state
with clear flags folds the claim's editing rule over (buffer, cursor). -/
theorem lineEditorRun_plain (xs : List Nat) (st : EditorState)
    (h1 : st.inCSI = false) (h2 : st.afterEsc = false)
    (h3 : st.inAlternateScreen = false)
    (hxs : ∀ b ∈ xs, b ≠ ESCB ∧ b ≠ EOFB) :
    lineEditorRun st xs =
      { st with buffer := (xs.foldl claimEditStep (st.buffer, st.cursor)).1,
                cursor := (xs.foldl claimEditStep (st.buffer, st.cursor)).2 } := by
  induction xs generalizing st with
  | nil => rfl
  | cons b xs ih =>
    obtain ⟨hb1, hb2⟩ := hxs b (List.mem_cons_self b xs)
    have hstep := editorStep_plain st b h1 h2 h3 hb1 hb2
    have hrun : lineEditorRun st (b :: xs) = lineEditorRun (editorStep st b) xs := rfl
    rw [hrun, hstep]
    have ihx := ih (EditorState.mk (claimEditStep (st.buffer, st.cursor) b).1
        (claimEditStep (st.buffer, st.cursor) b).2 st.csiBuffer st.inCSI st.afterEsc
        st.inAlternateScreen st.outputs) h1 h2 h3
        (fun c hc => hxs c (List.mem_cons_of_mem b hc))
    rw [ihx]
    simp only [List.foldl_cons]

/-- C2 theorem.  For an ESC-free, marker-free byte sequence `xs` followed by
the end-of-command marker 0x04, the editor emits exactly one string, equal to
`xs` processed in order by the claim's insertion/deletion rules. -/
theorem lineEditor_no_esc_matches_editing_rules (xs : List Nat)
    (hxs : ∀ b ∈ xs, b ≠ ESCB ∧ b ≠ EOFB) :
    (lineEditorRun initEditor (xs ++ [EOFB])).outputs = [claimEdit xs] := by
  have hsplit : lineEditorRun initEditor (xs ++ [EOFB])
      = lineEditorRun (lineEditorRun initEditor xs) [EOFB] := by
    unfold lineEditorRun
    rw [List.foldl_append]
  rw [hsplit, lineEditorRun_plain xs initEditor rfl rfl rfl hxs]
  rfl

/-- C2 witness: typing "hi" then backspace then the marker emits "h". -/
theorem lineEditor_no_esc_matches_editing_rules_witness :
    (lineEditorRun initEditor ([0x68, 0x69, 0x08] ++ [EOFB])).outputs
      = [claimEdit [0x68, 0x69, 0x08]] :=
  lineEditor_no_esc_matches_editing_rules [0x68, 0x69, 0x08] (by decide)

/-! ## C3: alternate-screen content is filtered out -/

/-- Splitting a run over list concatenation. -/
theorem lineEditorRun_append (st : EditorState) (a b : List Nat) :
    lineEditorRun st (a ++ b) = lineEditorRun (lineEditorRun st a) b := by
  unfold lineEditorRun
  rw [List.foldl_append]

/-- While the alternate-screen flag is set and no CSI or ESC lookahead is
pending, ESC-free input is discarded without any state change. -/
theorem run_alt_skip (X : List Nat) : ∀ st : EditorState,
    st.inCSI = false → st.afterEsc = false → st.inAlternateScreen = true →
    (∀ b ∈ X, b ≠ ESCB) → lineEditorRun st X = st := by
  induction X with
  | nil => intro st _ _ _ _; rfl
  | cons b X ih =>
    intro st h1 h2 h3 hX
    have hb : b ≠ ESCB := hX b (List.mem_cons_self b X)
    have hstep : editorStep st b = st := by
      unfold editorStep
      rw [if_neg (by simp [h2]), if_neg (by simp [h1]), if_pos (by simp [h3, hb])]
    have hcons : lineEditorRun st (b :: X) = lineEditorRun (editorStep st b) X := rfl
    rw [hcons, hstep, ih st h1 h2 h3 (fun c hc => hX c (List.mem_cons_of_mem b hc))]

/-- While inside a CSI sequence, non-final bytes are only accumulated into the
CSI buffer. -/
theorem run_csi_accum (pre : List Nat) : ∀ st : EditorState,
    st.inCSI = true → st.afterEsc = false →
    (∀ b ∈ pre, isCSIFinal b = false) →
    lineEditorRun st pre = { st with csiBuffer := st.csiBuffer ++ pre } := by
  induction pre with
  | nil =>
    intro st _ _ _
    show st = { st with csiBuffer := st.csiBuffer ++ [] }
    rw [List.append_nil]
  | cons b pre ih =>
    intro st h1 h2 hpre
    have hb : isCSIFinal b = false := hpre b (List.mem_cons_self b pre)
    have hstep : editorStep st b = { st with csiBuffer := st.csiBuffer ++ [b] } := by
      unfold editorStep
      rw [if_neg (by simp [h2]), if_pos (by simp [h1]), if_neg (by simp [hb])]
    have hcons : lineEditorRun st (b :: pre) = lineEditorRun (editorStep st b) pre := rfl
    rw [hcons, hstep,
      ih { st with csiBuffer := st.csiBuffer ++ [b] } h1 h2
        (fun c hc => hpre c (List.mem_cons_of_mem b hc))]
    simp [List.append_assoc]

/-- Processing a full CSI sequence `ESC [ body fin` from a quiescent state
dispatches `body ++ [fin]` to the CSI handler and clears the CSI buffer. -/
theorem run_csi_seq (body : List Nat) (fin : Nat) (bf : List Nat) (cu : Nat)
    (alt0 : Bool) (out : List (List Nat))
    (hfin : isCSIFinal fin = true)
    (hbody : ∀ b ∈ body, isCSIFinal b = false) :
    lineEditorRun (EditorState.mk bf cu [] false false alt0 out)
        (ESCB :: CSIB :: (body ++ [fin]))
      = EditorState.mk (handleCSI (body ++ [fin]) bf cu alt0).1
          (handleCSI (body ++ [fin]) bf cu alt0).2.1 [] false false
          (handleCSI (body ++ [fin]) bf cu alt0).2.2 out := by
  have e1 : editorStep (EditorState.mk bf cu [] false false alt0 out) ESCB
      = EditorState.mk bf cu [] false true alt0 out := by
    unfold editorStep
    rw [if_neg (by simp), if_neg (by simp), if_neg (by simp),
      if_neg (by decide), if_pos rfl]
  have e2 : editorStep (EditorState.mk bf cu [] false true alt0 out) CSIB
      = EditorState.mk bf cu [] true false alt0 out := by
    unfold editorStep
    rw [if_pos (by simp), if_pos rfl]
  have hc1 : lineEditorRun (EditorState.mk bf cu [] false false alt0 out)
      (ESCB :: CSIB :: (body ++ [fin]))
      = lineEditorRun (EditorState.mk bf cu [] true false alt0 out)
          (body ++ [fin]) := by
    show lineEditorRun (editorStep (editorStep
        (EditorState.mk bf cu [] false false alt0 out) ESCB) CSIB) (body ++ [fin])
      = _
    rw [e1, e2]
  rw [hc1, lineEditorRun_append,
    run_csi_accum body (EditorState.mk bf cu [] true false alt0 out) rfl rfl hbody]
  show editorStep (EditorState.mk bf cu ([] ++ body) true false alt0 out) fin = _
  unfold editorStep
  rw [if_neg (by simp), if_pos (by simp), if_pos hfin]
  rw [List.nil_append]

/-- A CSI sequence ending in `h` that contains "?1049" turns the
alternate-screen flag on and leaves buffer and cursor alone. -/
theorem handleCSI_concat_h (pre bf : List Nat) (cu : Nat) (alt0 : Bool)
    (hin : listContains (pre ++ [0x68]) q1049 = true) :
    handleCSI (pre ++ [0x68]) bf cu alt0 = (bf, cu, true) := by
  have hsuf : listHasSuffix (pre ++ [0x68]) [0x68] = true :=
    (listHasSuffix_single _ 0x68).mpr (List.getLast?_concat _)
  unfold handleCSI
  rw [hsuf, hin]
  rfl

/-- A CSI sequence ending in `l` that contains "?1049" turns the
alternate-screen flag off and leaves buffer and cursor alone. -/
theorem handleCSI_concat_l (pre bf : List Nat) (cu : Nat) (alt0 : Bool)
    (hin : listContains (pre ++ [0x6C]) q1049 = true) :
    handleCSI (pre ++ [0x6C]) bf cu alt0 = (bf, cu, false) := by
  have hlast : (pre ++ [0x6C]).getLast? = some 0x6C := List.getLast?_concat _
  have hsuf68 : listHasSuffix (pre ++ [0x6C]) [0x68] = false := by
    cases h : listHasSuffix (pre ++ [0x6C]) [0x68]
    · rfl
    · rw [(listHasSuffix_single _ _).mp h] at hlast
      exact absurd (Option.some.inj hlast) (by decide)
  have hsuf : listHasSuffix (pre ++ [0x6C]) [0x6C] = true :=
    (listHasSuffix_single _ 0x6C).mpr (List.getLast?_concat _)
  unfold handleCSI
  rw [hsuf68, hsuf, hin]
  rfl

/-- C3 theorem.  An enter-alternate-screen sequence `ESC [ pre1 h` (with
"?1049" in its body), followed by an ESC-free segment `X`, followed by the exit
sequence `ESC [ pre2 l` (with "?1049" in its body), leaves the editor state
exactly as it was: the bytes of `X` change neither buffer nor cursor and
contribute to no emitted output, whatever input follows. -/
theorem lineEditor_alt_screen_filters_content (st : EditorState)
    (pre1 pre2 X rest : List Nat)
    (h1 : st.inCSI = false) (h2 : st.afterEsc = false)
    (h3 : st.inAlternateScreen = false) (hcb : st.csiBuffer = [])
    (hpre1 : ∀ b ∈ pre1, isCSIFinal b = false)
    (hin1 : listContains (pre1 ++ [0x68]) q1049 = true)
    (hpre2 : ∀ b ∈ pre2, isCSIFinal b = false)
    (hin2 : listContains (pre2 ++ [0x6C]) q1049 = true)
    (hX : ∀ b ∈ X, b ≠ ESCB) :
    lineEditorRun st ((ESCB :: CSIB :: (pre1 ++ [0x68])) ++ X
        ++ (ESCB :: CSIB :: (pre2 ++ [0x6C])) ++ rest)
      = lineEditorRun st rest := by
  obtain ⟨bf, cu, cb, ic, ae, alt0, out⟩ := st
  dsimp only at h1 h2 h3 hcb
  subst h1 h2 h3 hcb
  rw [lineEditorRun_append, lineEditorRun_append, lineEditorRun_append]
  rw [run_csi_seq pre1 0x68 bf cu false out (by decide) hpre1,
    handleCSI_concat_h pre1 bf cu false hin1]
  dsimp only
  rw [run_alt_skip X (EditorState.mk bf cu [] false false true out) rfl rfl rfl hX]
  rw [run_csi_seq pre2 0x6C bf cu true out (by decide) hpre2,
    handleCSI_concat_l pre2 bf cu true hin2]

/-- C3 witness: "a", enter alternate screen, garbage (including a stray
end-of-command marker), exit, then "b" and the marker: the output is "ab" and
the garbage never surfaces. -/
theorem lineEditor_alt_screen_filters_content_witness :
    lineEditorRun initEditor
        ((ESCB :: CSIB :: ([0x3F, 0x31, 0x30, 0x34, 0x39] ++ [0x68]))
          ++ [0x47, 0x41, EOFB, 0x52]
          ++ (ESCB :: CSIB :: ([0x3F, 0x31, 0x30, 0x34, 0x39] ++ [0x6C]))
          ++ [0x62, EOFB])
      = lineEditorRun initEditor [0x62, EOFB] :=
  lineEditor_alt_screen_filters_content initEditor
    [0x3F, 0x31, 0x30, 0x34, 0x39] [0x3F, 0x31, 0x30, 0x34, 0x39]
    [0x47, 0x41, EOFB, 0x52] [0x62, EOFB]
    rfl rfl rfl rfl (by decide) (by decide) (by decide) (by decide) (by decide)

/-! ## C9: the cursor stays within the buffer -/

/-- The invariant: the cursor lies between 0 and the buffer length. -/
def cursorInv (st : EditorState) : Prop := st.cursor ≤ st.buffer.length

/-- Insertion preserves the cursor invariant. -/
theorem insertByte_cursorInv (st : EditorState) (b : Nat)
    (h : cursorInv st) : cursorInv (insertByte st b) := by
  obtain ⟨bf, cu, cb, ic, ae, alt0, out⟩ := st
  unfold cursorInv at h ⊢
  dsimp only at h
  unfold insertByte
  split_ifs <;>
    simp only [List.length_append, List.length_take, List.length_drop,
      List.length_cons, List.length_singleton] <;>
    omega

/-- Every editor step preserves the cursor invariant. -/
theorem editorStep_cursorInv (st : EditorState) (b : Nat)
    (h : cursorInv st) : cursorInv (editorStep st b) := by
  obtain ⟨bf, cu, cb, ic, ae, alt0, out⟩ := st
  have hins := fun hb => insertByte_cursorInv (EditorState.mk bf cu cb ic ae alt0 out) b hb
  unfold cursorInv at h ⊢
  dsimp only at h
  unfold editorStep
  split_ifs <;>
    first
      | exact h
      | (dsimp only; omega)
      | (dsimp only; exact handleCSI_cursor_le _ _ _ _ h)
      | (dsimp only
         simp only [List.length_append, List.length_take, List.length_drop,
           List.length_cons, List.length_singleton]
         omega)
      | exact hins h

/-- Running the editor preserves the cursor invariant. -/
theorem lineEditorRun_cursorInv (l : List Nat) : ∀ st : EditorState,
    cursorInv st → cursorInv (lineEditorRun st l) := by
  induction l with
  | nil => intro st h; exact h
  | cons b l ih =>
    intro st h
    exact ih (editorStep st b) (editorStep_cursorInv st b h)

/-- C9 theorem.  `0 ≤ cursor ≤ |buffer|` holds initially and is preserved by
insertion, by every CSI-handler action, by every editor step (deletion,
emission, escapes, ignored bytes), by whole runs and by reset.  (The lower
bound is inherent to the `Nat` cursor.) -/
theorem lineEditor_cursor_in_range :
    cursorInv initEditor ∧
    (∀ st b, cursorInv st → cursorInv (insertByte st b)) ∧
    (∀ seq bf cu alt, cu ≤ bf.length →
      (handleCSI seq bf cu alt).2.1 ≤ (handleCSI seq bf cu alt).1.length) ∧
    (∀ st b, cursorInv st → cursorInv (editorStep st b)) ∧
    (∀ st l, cursorInv st → cursorInv (lineEditorRun st l)) ∧
    (∀ st, cursorInv (resetEditor st)) :=
  ⟨Nat.le_refl 0, insertByte_cursorInv, handleCSI_cursor_le,
    editorStep_cursorInv, fun st l => lineEditorRun_cursorInv l st,
    fun _ => Nat.le_refl 0⟩

/-- C9 witness: the invariant after a concrete run with over-deletion, cursor
moves and an emission. -/
theorem lineEditor_cursor_in_range_witness :
    cursorInv (lineEditorRun initEditor
      [0x61, 0x08, 0x08, ESCB, CSIB, ARROW_LEFT, 0x62, EOFB]) :=
  lineEditor_cursor_in_range.2.2.2.2.1 initEditor
    [0x61, 0x08, 0x08, ESCB, CSIB, ARROW_LEFT, 0x62, EOFB]
    lineEditor_cursor_in_range.1

/-! ## C10: emitted strings hold only LF, CR and printable ASCII -/

/-- A byte the line editor is allowed to store: LF, CR or printable ASCII. -/
def cleanByte (b : Nat) : Prop := b = 0x0A ∨ b = 0x0D ∨ (32 ≤ b ∧ b ≤ 126)

/-- Clean-state invariant: every buffer byte and every byte of every emitted
output is clean. -/
def cleanEditor (st : EditorState) : Prop :=
  (∀ b ∈ st.buffer, cleanByte b) ∧ (∀ o ∈ st.outputs, ∀ b ∈ o, cleanByte b)

/-- A byte in the buffer after a step was already there, or is the incoming
byte and that byte is clean. -/
theorem editorStep_buffer_mem (st : EditorState) (b x : Nat)
    (hx : x ∈ (editorStep st b).buffer) :
    x ∈ st.buffer ∨ (x = b ∧ cleanByte b) := by
  obtain ⟨bf, cu, cb, ic, ae, alt0, out⟩ := st
  unfold cleanByte
  unfold editorStep insertByte at hx
  dsimp only at hx ⊢
  split_ifs at hx <;>
    first
      | exact Or.inl hx
      | (rw [handleCSI_buffer] at hx; exact Or.inl hx)
      | exact absurd hx (List.not_mem_nil x)
      | (rcases List.mem_append.mp hx with hm | hm
         · exact Or.inl hm
         · refine Or.inr ⟨List.mem_singleton.mp hm, ?_⟩
           omega)
      | (rcases List.mem_append.mp hx with hm | hm
         · exact Or.inl (List.take_subset _ _ hm)
         · rcases List.mem_cons.mp hm with hm2 | hm2
           · refine Or.inr ⟨hm2, ?_⟩
             omega
           · exact Or.inl (List.drop_subset _ _ hm2))
      | (rcases List.mem_append.mp hx with hm | hm
         · exact Or.inl (List.take_subset _ _ hm)
         · exact Or.inl (List.drop_subset _ _ hm))

/-- An output present after a step was already emitted, or is a snapshot of
the buffer. -/
theorem editorStep_outputs_bound (st : EditorState) (b : Nat) (o : List Nat)
    (ho : o ∈ (editorStep st b).outputs) : o ∈ st.outputs ∨ o = st.buffer := by
  obtain ⟨bf, cu, cb, ic, ae, alt0, out⟩ := st
  unfold editorStep insertByte at ho
  dsimp only at ho ⊢
  split_ifs at ho <;>
    first
      | exact Or.inl ho
      | (rcases List.mem_append.mp ho with hm | hm
         · exact Or.inl hm
         · exact Or.inr (List.mem_singleton.mp hm))

/-- Every editor step preserves the clean-state invariant. -/
theorem editorStep_clean (st : EditorState) (b : Nat) (h : cleanEditor st) :
    cleanEditor (editorStep st b) := by
  obtain ⟨hbuf, hout⟩ := h
  constructor
  · intro x hx
    rcases editorStep_buffer_mem st b x hx with hm | ⟨hxb, hcb⟩
    · exact hbuf x hm
    · rw [hxb]; exact hcb
  · intro o ho x hx
    rcases editorStep_outputs_bound st b o ho with hm | hm
    · exact hout o hm x hx
    · exact hbuf x (hm ▸ hx)

/-- Running the editor preserves the clean-state invariant. -/
theorem lineEditorRun_clean (l : List Nat) : ∀ st : EditorState,
    cleanEditor st → cleanEditor (lineEditorRun st l) := by
  induction l with
  | nil => intro st h; exact h
  | cons b l ih =>
    intro st h
    exact ih (editorStep st b) (editorStep_clean st b h)

/-- C10 theorem.  Every byte of every string the line editor emits is LF, CR
or printable ASCII 0x20-0x7E; control bytes, the end-of-command marker and
escape-sequence bytes can never appear in an emitted output. -/
theorem lineEditor_outputs_printable (l o : List Nat) (b : Nat)
    (ho : o ∈ (lineEditorRun initEditor l).outputs) (hb : b ∈ o) :
    cleanByte b := by
  have hclean : cleanEditor (lineEditorRun initEditor l) :=
    lineEditorRun_clean l initEditor
      ⟨fun x hx => absurd hx (List.not_mem_nil x),
       fun o ho => absurd ho (List.not_mem_nil o)⟩
  exact hclean.2 o ho b hb

/-- C10 witness: the byte emitted for input "h" followed by the marker is
clean. -/
theorem lineEditor_outputs_printable_witness : cleanByte 0x68 :=
  lineEditor_outputs_printable [0x68, EOFB] [0x68] 0x68 (by decide) (by decide)

/-! ## C4: record ids are consecutive, timestamps monotone, counter never
reset -/

/-- Ids invariant: along any event trace short enough for the `uint64` counter
not to wrap, the counter tracks the number of emitted records and the i-th
record (0-based) carries id `repr (i+1)`. -/
theorem rcRun_ids (tr : List RCEvent) : ∀ s : RCState,
    s.counter = s.records.length →
    s.counter + tr.length < 2 ^ 64 →
    (∀ i (hi : i < s.records.length), (s.records.get ⟨i, hi⟩).id = Nat.repr (i + 1)) →
    (rcRun s tr).counter = (rcRun s tr).records.length ∧
    ∀ i (hi : i < (rcRun s tr).records.length),
      ((rcRun s tr).records.get ⟨i, hi⟩).id = Nat.repr (i + 1) := by
  induction tr with
  | nil => intro s hc _ hid; exact ⟨hc, hid⟩
  | cons e tr ih =>
    intro s hc hlen hid
    have hlen1 : s.counter + tr.length + 1 < 2 ^ 64 := by
      rw [List.length_cons] at hlen; omega
    have hrun : rcRun s (e :: tr) = rcRun (rcStep s e) tr := rfl
    rw [hrun]
    cases e with
    | enqOutput o =>
      exact ih _ hc (by show s.counter + tr.length < 2 ^ 64; omega) hid
    | enqCommand c =>
      exact ih _ hc (by show s.counter + tr.length < 2 ^ 64; omega) hid
    | reset =>
      have hrec : (rcStep s .reset).records = s.records := by
        unfold rcStep
        dsimp only
        split <;> rfl
      have hcnt : (rcStep s .reset).counter = s.counter := by
        unfold rcStep
        dsimp only
        split <;> rfl
      refine ih _ ?_ ?_ ?_
      · rw [hrec, hcnt]; exact hc
      · rw [hcnt]; omega
      · intro i
        rw [hrec]
        exact hid i
    | procOutput t =>
      cases houtq : s.outQueue with
      | nil =>
        have hstep : rcStep s (.procOutput t) = s := by
          unfold rcStep
          dsimp only
          rw [houtq]
        rw [hstep]
        exact ih s hc (by omega) hid
      | cons o rest =>
        have hn : (s.counter + 1) % 2 ^ 64 = s.counter + 1 :=
          Nat.mod_eq_of_lt (by omega)
        have hstep : rcStep s (.procOutput t) =
            { s with
              counter := s.counter + 1
              outQueue := rest
              cmdQueue := (match s.cmdQueue with | [] => [] | _ :: cs => cs)
              records := s.records ++
                [⟨Nat.repr (s.counter + 1),
                  (match s.cmdQueue with | [] => "" | c :: _ => c), o, t⟩] } := by
          unfold rcStep
          dsimp only
          rw [houtq, hn]
        rw [hstep]
        refine ih _ ?_ ?_ ?_
        · show s.counter + 1 = (s.records ++ [_]).length
          simp only [List.length_append, List.length_singleton]
          omega
        · show s.counter + 1 + tr.length < 2 ^ 64
          omega
        · intro i hi
          dsimp only at hi ⊢
          rcases Nat.lt_or_ge i s.records.length with hlt | hge
          · have hget : (s.records ++
                [(⟨Nat.repr (s.counter + 1),
                  (match s.cmdQueue with | [] => "" | c :: _ => c), o, t⟩ :
                    CommandRecord)]).get ⟨i, hi⟩ = s.records.get ⟨i, hlt⟩ := by
              rw [List.get_eq_getElem, List.get_eq_getElem]
              exact List.getElem_append_left hlt
            rw [hget]
            exact hid i hlt
          · have hieq : i = s.records.length := by
              simp only [List.length_append, List.length_singleton] at hi
              omega
            subst hieq
            have hget : (s.records ++
                [(⟨Nat.repr (s.counter + 1),
                  (match s.cmdQueue with | [] => "" | c :: _ => c), o, t⟩ :
                    CommandRecord)]).get ⟨s.records.length, hi⟩
                = ⟨Nat.repr (s.counter + 1),
                  (match s.cmdQueue with | [] => "" | c :: _ => c), o, t⟩ := by
              rw [List.get_eq_getElem]
              exact List.getElem_concat_length _ _ _ rfl _
            rw [hget, hc]

/-- Timestamp invariant: if the already-emitted timestamps followed by the
upcoming `procOutput` times form a nondecreasing list, the timestamps of the
records after the run are nondecreasing. -/
theorem rcRun_ts (tr : List RCEvent) : ∀ s : RCState,
    ((s.records.map (fun r => r.returnTimestamp)) ++ procTimes tr).Pairwise (· ≤ ·) →
    ((rcRun s tr).records.map (fun r => r.returnTimestamp)).Pairwise (· ≤ ·) := by
  induction tr with
  | nil =>
    intro s h
    rw [show procTimes ([] : List RCEvent) = [] from rfl, List.append_nil] at h
    exact h
  | cons e tr ih =>
    intro s h
    have hrun : rcRun s (e :: tr) = rcRun (rcStep s e) tr := rfl
    rw [hrun]
    cases e with
    | enqOutput o => exact ih _ h
    | enqCommand c => exact ih _ h
    | reset =>
      have hrec : (rcStep s .reset).records = s.records := by
        unfold rcStep
        dsimp only
        split <;> rfl
      refine ih _ ?_
      rw [hrec]
      exact h
    | procOutput t =>
      have hpt : procTimes (.procOutput t :: tr) = t :: procTimes tr := rfl
      rw [hpt] at h
      cases houtq : s.outQueue with
      | nil =>
        have hstep : rcStep s (.procOutput t) = s := by
          unfold rcStep
          dsimp only
          rw [houtq]
        rw [hstep]
        refine ih s ?_
        have hsub : List.Sublist
            (List.map (fun r => r.returnTimestamp) s.records ++ procTimes tr)
            (List.map (fun r => r.returnTimestamp) s.records ++ (t :: procTimes tr)) :=
          List.Sublist.append_left (List.sublist_cons_self t (procTimes tr)) _
        exact List.Pairwise.sublist hsub h
      | cons o rest =>
        refine ih _ ?_
        have hrec : (rcStep s (.procOutput t)).records = s.records ++
            [⟨Nat.repr ((s.counter + 1) % 2 ^ 64),
              (match s.cmdQueue with | [] => "" | c :: _ => c), o, t⟩] := by
          unfold rcStep
          dsimp only
          rw [houtq]
        rw [hrec]
        simp only [List.map_append, List.map_cons, List.map_nil]
        rw [List.append_assoc, List.singleton_append]
        exact h

/-- C4 theorem.  Along any trace in which the `uint64` record counter cannot
wrap and the wall-clock readings taken at record creation are nondecreasing,
the emitted records have ids "1", "2", "3", ... in order (so each id, read as
an integer, is the previous plus one) and nondecreasing timestamps; the
counter is never reset, including by reset events in the trace. -/
theorem rc_ids_consecutive_and_timestamps_monotone (tr : List RCEvent)
    (hlen : tr.length < 2 ^ 64)
    (hts : (procTimes tr).Pairwise (· ≤ ·)) :
    (∀ i (hi : i < (rcRun rcInit tr).records.length),
      ((rcRun rcInit tr).records.get ⟨i, hi⟩).id = Nat.repr (i + 1)) ∧
    ((rcRun rcInit tr).records.map (fun r => r.returnTimestamp)).Pairwise (· ≤ ·) := by
  constructor
  · exact (rcRun_ids tr rcInit rfl (by show 0 + tr.length < 2 ^ 64; omega)
      (fun i hi => absurd hi (Nat.not_lt_zero i))).2
  · exact rcRun_ts tr rcInit (by simpa using hts)

/-- C4 witness: a trace with two emissions separated by a reset still yields
nondecreasing timestamps (and, by the theorem, ids "1" then "2"). -/
theorem rc_ids_consecutive_and_timestamps_monotone_witness :
    ((rcRun rcInit [.enqOutput "a", .procOutput 3, .reset, .enqOutput "b",
        .procOutput 7]).records.map (fun r => r.returnTimestamp)).Pairwise (· ≤ ·) :=
  (rc_ids_consecutive_and_timestamps_monotone
    [.enqOutput "a", .procOutput 3, .reset, .enqOutput "b", .procOutput 7]
    (by decide) (by decide)).2

end Script2Json
